import Mathlib

/-!
Verification development for the NiziPOS B20 simulator serial-protocol core
(`src/App.tsx`).  The mutable refs of the React component
(`transferInProgressRef`, `transferAbortedRef`, `lastTransferActivityRef`,
the device handle and the channel write log) are embedded as an explicit
state record; the inbound read callback, the watchdog tick, the image-send
handshake, the image-loop scheduler and the command validation are embedded
as pure functions on that state.  JavaScript strings are modelled as
`List Char` (the protocol is ASCII, so `TextDecoder` on a chunk is the
identity on the corresponding character list).
-/

namespace NiziPos

/-- Whitespace test matching JavaScript `String.prototype.trim`
(space, tab, newline, carriage return, form feed, vertical tab). -/
def isWS (c : Char) : Bool :=
  c = ' ' || c = '\t' || c = '\n' || c = '\r' || c = '\x0c' || c = '\x0b'

/-- JavaScript `s.trim()`: drop whitespace from both ends. -/
def jsTrim (l : List Char) : List Char :=
  ((l.dropWhile isWS).reverse.dropWhile isWS).reverse

/-- Boolean "is a prefix of" on character lists (used to model substring
search, i.e. JavaScript `includes` / `replace` with a string pattern). -/
def isPrefList : List Char → List Char → Bool
  | [], _ => true
  | _ :: _, [] => false
  | a :: as, b :: bs => a = b && isPrefList as bs

/-- Locate the first (leftmost) occurrence of `pat` in a list, returning the
part before the occurrence and the part after it.  `none` when `pat` does
not occur.  This models JavaScript `s.includes(pat)` (the `isSome` test)
together with `s.replace(pat, '')` (recombining the two parts). -/
def splitFirst (pat : List Char) : List Char → Option (List Char × List Char)
  | [] => if pat.isEmpty then some ([], []) else none
  | c :: rest =>
    if isPrefList pat (c :: rest) then some ([], (c :: rest).drop pat.length)
    else
      match splitFirst pat rest with
      | some (pre, post) => some (c :: pre, post)
      | none => none

/-- Prepend a character to the first line of a split result, or to the
remainder when no complete line has been produced yet. -/
def consHead (c : Char) : List (List Char) × List Char → List (List Char) × List Char
  | ([], r) => ([], c :: r)
  | (l :: ls, r) => ((c :: l) :: ls, r)

/-- JavaScript `buffer.split(/\r\n|\n/)` followed by `messages.pop()`:
the first component is the list of complete (terminator-delimited)
segments, the second is the trailing incomplete segment that becomes the
new classifier buffer.  A lone `\r` is not a terminator (the regex only
matches `\r\n` or bare `\n`). -/
def splitLines : List Char → List (List Char) × List Char
  | [] => ([], [])
  | [c] => if c = '\n' then ([[]], []) else ([], [c])
  | c :: d :: rest =>
    if c = '\n' then ([] :: (splitLines (d :: rest)).1, (splitLines (d :: rest)).2)
    else if c = '\r' ∧ d = '\n' then ([] :: (splitLines rest).1, (splitLines rest).2)
    else consHead c (splitLines (d :: rest))

/-! ## Protocol state and the inbound read callback (src/App.tsx `startReading`) -/

/-- Events surfaced by the byte classifier: the `FRAME_LOST` sentinel, the
`INVALID_CMD` sentinel, and classified text lines (the payload is the
trimmed line reported to the monitor). -/
inductive RxEvent where
  | frameLost : RxEvent
  | invalidCmd : RxEvent
  | textLine : List Char → RxEvent
deriving DecidableEq, Repr

/-- The mutable protocol state of the component: the classifier buffer
(`messageBuffer`), `transferInProgressRef`, `transferAbortedRef`, whether a
device handle is open (`deviceRef` non-null together with
`isDeviceConnected`), `lastTransferActivityRef`, the log of channel writes,
and the emitted classifier events. -/
structure RxState where
  buffer : List Char
  inProgress : Bool
  aborted : Bool
  deviceOpen : Bool
  lastActivity : Nat
  writes : List (List Char)
  events : List RxEvent
deriving DecidableEq, Repr

/-- `abortTransfer` (src/App.tsx lines 468-479): only when a transfer is in
progress and a device is open, write the literal `ABORT` command, set the
aborted flag and clear the in-progress flag. -/
def abortTransfer (s : RxState) : RxState :=
  if s.inProgress ∧ s.deviceOpen then
    { s with writes := s.writes ++ ["ABORT\n".toList],
             aborted := true, inProgress := false }
  else s

/-- The `FRAME_LOST\r\n` sentinel. -/
def frameLostPat : List Char := "FRAME_LOST\r\n".toList

/-- The `INVALID_CMD\r\n` sentinel. -/
def invalidCmdPat : List Char := "INVALID_CMD\r\n".toList

/-- `FRAME_LOST` sentinel scan (src/App.tsx lines 414-419): if the
accumulated buffer contains the sentinel, report it, set the aborted flag,
fire `abortTransfer` when a transfer is in progress, and delete the first
occurrence from the buffer. -/
def frameLostStage (s : RxState) (buf : List Char) : RxState × List Char :=
  match splitFirst frameLostPat buf with
  | some (pre, post) =>
    let s1 := { s with events := s.events ++ [RxEvent.frameLost], aborted := true }
    (if s1.inProgress then abortTransfer s1 else s1, pre ++ post)
  | none => (s, buf)

/-- `INVALID_CMD` sentinel scan (src/App.tsx lines 421-424): report and
delete the first occurrence. -/
def invalidCmdStage (s : RxState) (buf : List Char) : RxState × List Char :=
  match splitFirst invalidCmdPat buf with
  | some (pre, post) =>
    ({ s with events := s.events ++ [RxEvent.invalidCmd] }, pre ++ post)
  | none => (s, buf)

/-- Turn the complete line segments into `TextLine` events: each segment is
trimmed and reported only when non-blank (src/App.tsx lines 429-433). -/
def emitTextLines (lines : List (List Char)) : List RxEvent :=
  lines.filterMap fun l =>
    if (jsTrim l).isEmpty then none else some (RxEvent.textLine (jsTrim l))

/-- Line splitting stage (src/App.tsx lines 426-433): split the buffer on
`\r\n` or bare `\n`, keep the trailing incomplete segment as the new
buffer, and report every non-blank complete segment. -/
def lineStage (s : RxState) (buf : List Char) : RxState :=
  { s with buffer := (splitLines buf).2,
           events := s.events ++ emitTextLines (splitLines buf).1 }

/-- One invocation of the `UsbSerial.read` callback (src/App.tsx lines
372-437) on a freshly read chunk, at wall-clock time `now`.  A chunk
containing the ready byte `'R'` (0x52) only refreshes the activity
timestamp; otherwise the first `'K'` (0x4B) or `'E'` (0x45) byte is
consumed as an ack signal; otherwise the chunk is appended to the
classifier buffer and run through the sentinel scans and line splitting.
The activity timestamp is refreshed unconditionally at the end (line 436).
(`abortTransfer` is fired without `await` in the source; it is modelled as
running to completion before the rest of the callback.) -/
def processChunk (now : Nat) (s : RxState) (chunk : List Char) : RxState :=
  let s1 :=
    if chunk.any (fun c => c = 'R') then s
    else
      match chunk.find? (fun c => c = 'K' || c = 'E') with
      | some c =>
        if c = 'K' then { s with inProgress := false }
        else { s with inProgress := false, aborted := true }
      | none =>
        let p1 := frameLostStage s (s.buffer ++ chunk)
        let p2 := invalidCmdStage p1.1 p1.2
        lineStage p2.1 p2.2
  { s1 with lastActivity := now }

/-- The `TextLine` events of a state, in emission order. -/
def textLinesOf (s : RxState) : List (List Char) :=
  s.events.filterMap fun e =>
    match e with
    | RxEvent.textLine m => some m
    | _ => none

/-- A fresh classifier/transfer state with no device activity yet. -/
def rxInit : RxState :=
  { buffer := [], inProgress := false, aborted := false, deviceOpen := true,
    lastActivity := 0, writes := [], events := [] }

/-- Resolution test of the ready-wait and ack-wait poll loops inside
`sendImageToDevice` (src/App.tsx lines 717, 755): the promise resolves
exactly when the transfer is no longer flagged in-progress. -/
def waitResolved (s : RxState) : Bool := !s.inProgress

/-- Rejection test of those poll loops (src/App.tsx lines 710, 748): the
promise rejects with `Transfer aborted` when the aborted flag is set. -/
def waitAborted (s : RxState) : Bool := s.aborted

/-! ## Timeout monitor (src/App.tsx `startTransferTimeoutChecker`) -/

/-- `TRANSFER_TIMEOUT` (src/App.tsx line 65). -/
def TRANSFER_TIMEOUT : Nat := 15000

/-- One tick of the 1 s watchdog (src/App.tsx lines 453-464): when a
transfer is in progress and more than `TRANSFER_TIMEOUT` ms have passed
since the last activity, fire `abortTransfer`. -/
def timeoutTick (now : Nat) (s : RxState) : RxState :=
  if s.inProgress ∧ now - s.lastActivity > TRANSFER_TIMEOUT then abortTransfer s
  else s

/-! ## clearImage and sendImageToDevice (src/App.tsx) -/

/-- `clearImage` (src/App.tsx lines 645-668): requires an open device; then
writes `CLEAR_IMAGE`, waits 500 ms, and clears both the in-progress and the
aborted flag unconditionally. `none` models the early return when not
connected (nothing is written). -/
def clearImage (s : RxState) : Option RxState :=
  if s.deviceOpen then
    some { s with writes := s.writes ++ ["CLEAR_IMAGE\n".toList],
                  inProgress := false, aborted := false }
  else none

/-- Failure of the guard at the top of `sendImageToDevice`. -/
inductive SendErr where
  | notConnected : SendErr
deriving DecidableEq, Repr

/-- The entry of `sendImageToDevice` (src/App.tsx lines 671-682): if no
device is open or the image data is null/empty, throw `Not connected to
device or invalid image data` without writing; otherwise set the
in-progress flag, clear the aborted flag and write `START_RTIMAGE`.  There
is no check of the previous in-progress state. -/
def sendImageBegin (s : RxState) (imageData : Option (List Nat)) :
    Except SendErr RxState :=
  if s.deviceOpen = false ∨ imageData.isNone then Except.error SendErr.notConnected
  else
    Except.ok { s with inProgress := true, aborted := false,
                       writes := s.writes ++ ["START_RTIMAGE\n".toList] }

/-! ## Image frame header (src/App.tsx lines 684-697) -/

/-- `FRAME_MAGIC` (src/App.tsx line 64). -/
def FRAME_MAGIC : Nat := 0xaa55cc33

/-- The four bytes written by `DataView.setUint32(_, v, true)`:
little-endian byte order. -/
def leBytes4 (v : Nat) : List Nat :=
  [v % 256, v / 256 % 256, v / 65536 % 256, v / 16777216 % 256]

/-- The 8-byte image header: magic constant then payload length, both
little-endian 32-bit. -/
def imageHeader (len : Nat) : List Nat := leBytes4 FRAME_MAGIC ++ leBytes4 len

/-- Lowercase hexadecimal digit, as produced by `Buffer.toString('hex')`. -/
def hexDigit (n : Nat) : Char :=
  if n < 10 then Char.ofNat (48 + n) else Char.ofNat (87 + n)

/-- Two lowercase hex characters for one byte. -/
def hexByte (b : Nat) : List Char := [hexDigit (b / 16), hexDigit (b % 16)]

/-- Hex text encoding of a byte sequence (`Buffer.toString('hex')`):
two characters per byte. -/
def hexEncode (bs : List Nat) : List Char := (bs.map hexByte).flatten

/-! ## Command validation (src/App.tsx `executeCommand`, SCREENTIME) -/

/-- The literal searched by the regex `/SCREENTIME\*\*(\d+)/`
(the characters of `SCREENTIME**`). -/
def stPat : List Char := ['S', 'C', 'R', 'E', 'E', 'N', 'T', 'I', 'M', 'E', '*', '*']

/-- First match of `/SCREENTIME\*\*(\d+)/` in a string: scan left to right
for a position where the literal is followed by at least one digit, and
capture the maximal digit run after it. -/
def matchScreentime : List Char → Option (List Char)
  | [] => none
  | c :: rest =>
    if isPrefList stPat (c :: rest) &&
        !(((c :: rest).drop stPat.length).takeWhile Char.isDigit).isEmpty then
      some (((c :: rest).drop stPat.length).takeWhile Char.isDigit)
    else matchScreentime rest

/-- `Number.parseInt` on a captured digit run. -/
def parseDigits (ds : List Char) : Nat :=
  ds.foldl (fun acc c => acc * 10 + (c.toNat - 48)) 0

/-- The SCREENTIME branch of `executeCommand` (src/App.tsx lines 519-547):
trim the field, require the regex to match, require the captured seconds to
lie in the closed range 30-300, then write the trimmed command text
verbatim with a trailing newline.  `none` models the local rejection paths
(nothing is written). -/
def executeScreentime (cmd : List Char) : Option (List Char) :=
  let v := jsTrim cmd
  match matchScreentime v with
  | none => none
  | some ds =>
    if parseDigits ds < 30 ∨ 300 < parseDigits ds then none
    else some (v ++ ['\n'])

/-! ## Image loop scheduler and uploaded image list (src/App.tsx) -/

/-- `MAX_IMAGES` (src/App.tsx line 66). -/
def MAX_IMAGES : Nat := 6

/-- The loop scheduler state: the uploaded image sequence, the active index
ref (`currentImageIndexRef`) and whether the loop interval is active. -/
structure LoopState where
  images : List (List Nat)
  currentIndex : Nat
  loopActive : Bool
deriving DecidableEq, Repr

/-- `removeImage` (src/App.tsx lines 610-620): splice the image out of the
sequence; stop the loop only when the loop is active and the pre-removal
sequence had at most one element.  The active index is not touched. -/
def removeImage (i : Nat) (st : LoopState) : LoopState :=
  let st1 := { st with images := st.images.eraseIdx i }
  if st.loopActive ∧ st.images.length ≤ 1 then { st1 with loopActive := false }
  else st1

/-- One step of `displayNextImage` (src/App.tsx lines 780-806): read the
image at the active index, then advance the index modulo the sequence
length.  `none` models the paths that stop the loop: an empty sequence, or
the thrown error when the index is out of bounds (`uploadedImages[i]` is
`undefined` and reading `.base64` throws, caught at line 799). -/
def displayNextImage (st : LoopState) : Option (List Nat × LoopState) :=
  if st.images.length = 0 then none
  else
    match st.images[st.currentIndex]? with
    | some img =>
      some (img, { st with currentIndex := (st.currentIndex + 1) % st.images.length })
    | none => none

/-- `pickImage` (src/App.tsx lines 555-607): reject a batch whose addition
would push the total beyond `MAX_IMAGES`, otherwise append it. -/
def pickImage (current newImages : List (List Nat)) : List (List Nat) :=
  if current.length + newImages.length > MAX_IMAGES then current
  else current ++ newImages

/-- `clearAllImages` (src/App.tsx lines 623-642) empties the sequence. -/
def clearAllImages : List (List Nat) := []

/-- The transfer-engine state right after the hex-encoded header has been
written during `sendImageToDevice`: a device is open, the transfer is
flagged in progress and not aborted. -/
def awaitingReady : RxState :=
  { buffer := [], inProgress := true, aborted := false, deviceOpen := true,
    lastActivity := 0, writes := [], events := [] }

/-- A state in which a transfer is already in progress (TransferState not
Idle) while the channel is open. -/
def busyState : RxState :=
  { buffer := [], inProgress := true, aborted := false, deviceOpen := true,
    lastActivity := 0, writes := [], events := [] }

/-- The scheduler state after `startLoop([img0, img1, img2])` has advanced
the active index to 2. -/
def loopAtTwo : LoopState :=
  { images := [[0], [1], [2]], currentIndex := 2, loopActive := true }

/-- The composition of the three text stages of the read callback on an
accumulated buffer `b` (sentinel scans, then line splitting). -/
def textPipeline (s : RxState) (b : List Char) : RxState :=
  lineStage (invalidCmdStage (frameLostStage s b).1 (frameLostStage s b).2).1
    (invalidCmdStage (frameLostStage s b).1 (frameLostStage s b).2).2

/-- The state of claim C4's witness scenario: a prior round left
`abFRAME_LOST\r` in the classifier buffer while a transfer is in flight. -/
def frameLostScenario : RxState :=
  { buffer := "abFRAME_LOST\r".toList, inProgress := true, aborted := false,
    deviceOpen := true, lastActivity := 0, writes := [], events := [] }

/-! ## Lemmas and claim theorems -/

/-- `isPrefList` agrees with list-prefix decomposition. -/
theorem isPrefList_iff (p l : List Char) :
    isPrefList p l = true ↔ ∃ t, l = p ++ t := by
  induction p generalizing l with
  | nil => simp [isPrefList]
  | cons a as ih =>
    cases l with
    | nil => simp [isPrefList]
    | cons b bs =>
      simp only [isPrefList, Bool.and_eq_true, decide_eq_true_eq, ih]
      constructor
      · rintro ⟨rfl, t, rfl⟩; exact ⟨t, rfl⟩
      · rintro ⟨t, ht⟩
        cases ht
        exact ⟨rfl, t, rfl⟩

/-- A found occurrence really decomposes the list. -/
theorem splitFirst_some (pat : List Char) : ∀ (l pre post : List Char),
    splitFirst pat l = some (pre, post) → l = pre ++ pat ++ post := by
  intro l
  induction l with
  | nil =>
    intro pre post h
    by_cases hp : pat.isEmpty
    · have hpat : pat = [] := List.isEmpty_iff.mp hp
      simp [splitFirst, hp, hpat] at h
      simp [hpat, h.1, h.2]
    · simp [splitFirst, hp] at h
  | cons c rest ih =>
    intro pre post h
    by_cases hp : isPrefList pat (c :: rest) = true
    · rcases (isPrefList_iff pat (c :: rest)).mp hp with ⟨t, ht⟩
      simp only [splitFirst, hp, if_true, Option.some.injEq, Prod.mk.injEq] at h
      rw [← h.1, ht, ← h.2, ht]
      simp [List.drop_left]
    · simp only [splitFirst, hp, Bool.false_eq_true, if_false] at h
      cases hrec : splitFirst pat rest with
      | none => simp [hrec] at h
      | some pp =>
        obtain ⟨pre0, post0⟩ := pp
        simp only [hrec, Option.some.injEq, Prod.mk.injEq] at h
        have hd := ih pre0 post0 hrec
        rw [← h.1, ← h.2, hd]
        simp

/-- When `splitFirst` fails, the pattern does not occur. -/
theorem splitFirst_none (pat : List Char) : ∀ (l : List Char),
    splitFirst pat l = none → ∀ pre post, l ≠ pre ++ pat ++ post := by
  intro l
  induction l with
  | nil =>
    intro h pre post hl
    by_cases hp : pat.isEmpty
    · simp [splitFirst, hp] at h
    · have hnn := List.append_eq_nil.mp hl.symm
      have hnn2 := List.append_eq_nil.mp hnn.1
      exact hp (by simp [hnn2.2])
  | cons c rest ih =>
    intro h pre post hl
    by_cases hp : isPrefList pat (c :: rest) = true
    · simp [splitFirst, hp] at h
    · simp only [splitFirst, hp, Bool.false_eq_true, if_false] at h
      cases hrec : splitFirst pat rest with
      | some pp => obtain ⟨a, b⟩ := pp; simp [hrec] at h
      | none =>
        cases pre with
        | nil =>
          apply hp
          refine (isPrefList_iff pat (c :: rest)).mpr ⟨post, ?_⟩
          simpa using hl
        | cons x xs =>
          simp only [List.cons_append, List.cons.injEq] at hl
          exact ih hrec xs post hl.2

/-- `splitFirst` finds the leftmost occurrence: any other decomposition has a
prefix at least as long. -/
theorem splitFirst_minimal (pat : List Char) (hp : pat ≠ []) :
    ∀ (l pre post : List Char), splitFirst pat l = some (pre, post) →
    ∀ pre2 post2, l = pre2 ++ pat ++ post2 → pre.length ≤ pre2.length := by
  intro l
  induction l with
  | nil =>
    intro pre post h
    have hpe : pat.isEmpty = false := by
      cases pat with
      | nil => exact absurd rfl hp
      | cons a as => rfl
    simp [splitFirst, hpe] at h
  | cons c rest ih =>
    intro pre post h pre2 post2 hl
    by_cases hpref : isPrefList pat (c :: rest) = true
    · simp only [splitFirst, hpref, if_true, Option.some.injEq, Prod.mk.injEq] at h
      rw [← h.1]
      simp
    · simp only [splitFirst, hpref, Bool.false_eq_true, if_false] at h
      cases hrec : splitFirst pat rest with
      | none => simp [hrec] at h
      | some pp =>
        obtain ⟨pre0, post0⟩ := pp
        simp only [hrec, Option.some.injEq, Prod.mk.injEq] at h
        cases pre2 with
        | nil =>
          exact absurd ((isPrefList_iff pat (c :: rest)).mpr ⟨post2, by simpa using hl⟩) hpref
        | cons x xs =>
          simp only [List.cons_append, List.cons.injEq] at hl
          have := ih pre0 post0 hrec xs post2 hl.2
          rw [← h.1]
          simpa using this

/-- Unfolding equation for `splitLines` on a two-or-more element list. -/
theorem splitLines_cons2 (c d : Char) (rest : List Char) :
    splitLines (c :: d :: rest) =
      if c = '\n' then ([] :: (splitLines (d :: rest)).1, (splitLines (d :: rest)).2)
      else if c = '\r' ∧ d = '\n' then ([] :: (splitLines rest).1, (splitLines rest).2)
      else consHead c (splitLines (d :: rest)) := rfl

/-- Unfolding equation for `splitLines` on a singleton list. -/
theorem splitLines_one (c : Char) :
    splitLines [c] = if c = '\n' then ([[]], []) else ([], [c]) := rfl

/-- If line splitting produced no complete line, the remainder is the whole
input. -/
theorem splitLines_fst_nil : ∀ (l : List Char),
    (splitLines l).1 = [] → (splitLines l).2 = l := by
  intro l
  match l with
  | [] => intro h; rfl
  | [c] =>
    rw [splitLines_one]
    by_cases hc : c = '\n'
    · simp [hc]
    · simp [hc]
  | c :: d :: rest =>
    rw [splitLines_cons2]
    by_cases hc : c = '\n'
    · simp [hc]
    · by_cases hcd : c = '\r' ∧ d = '\n'
      · simp [hc, hcd]
      · rw [if_neg hc, if_neg hcd]
        intro h
        have ihrec := splitLines_fst_nil (d :: rest)
        cases hsl : splitLines (d :: rest) with
        | mk f s =>
          rw [hsl] at h ihrec
          cases f with
          | nil =>
            have h2 : s = d :: rest := ihrec rfl
            simp [consHead, h2]
          | cons l1 ls => simp [consHead] at h
  termination_by l => l.length

/-- The remainder of line splitting is a suffix of the input. -/
theorem splitLines_snd_suffix : ∀ (l : List Char),
    ∃ w, l = w ++ (splitLines l).2 := by
  intro l
  match l with
  | [] => exact ⟨[], rfl⟩
  | [c] =>
    rw [splitLines_one]
    by_cases hc : c = '\n'
    · exact ⟨[c], by simp [hc]⟩
    · exact ⟨[], by simp [hc]⟩
  | c :: d :: rest =>
    rw [splitLines_cons2]
    by_cases hc : c = '\n'
    · obtain ⟨w, hw⟩ := splitLines_snd_suffix (d :: rest)
      refine ⟨c :: w, ?_⟩
      rw [if_pos hc]
      simpa using hw
    · by_cases hcd : c = '\r' ∧ d = '\n'
      · obtain ⟨w, hw⟩ := splitLines_snd_suffix rest
        refine ⟨c :: d :: w, ?_⟩
        rw [if_neg hc, if_pos hcd]
        simpa using hw
      · obtain ⟨w, hw⟩ := splitLines_snd_suffix (d :: rest)
        rw [if_neg hc, if_neg hcd]
        cases hsl : splitLines (d :: rest) with
        | mk f s =>
          rw [hsl] at hw
          cases f with
          | nil =>
            have h2 : s = d :: rest := by
              have := splitLines_fst_nil (d :: rest)
              rw [hsl] at this
              exact this rfl
            exact ⟨[], by simp [consHead, h2]⟩
          | cons l1 ls =>
            simp only at hw
            exact ⟨c :: w, by simp [consHead, hw]⟩
  termination_by l => l.length

/-- Decomposition of line splitting over an append: processing `a ++ b` in
one go yields the complete lines of `a`, then the lines of the carried
remainder of `a` glued to `b`; the final remainders agree.  This is the
split-invariance core of the byte classifier. -/
theorem splitLines_append : ∀ (a b : List Char),
    splitLines (a ++ b) =
      ((splitLines a).1 ++ (splitLines ((splitLines a).2 ++ b)).1,
        (splitLines ((splitLines a).2 ++ b)).2) := by
  intro a b
  match a with
  | [] => simp [splitLines]
  | [c] =>
    by_cases hc : c = '\n'
    · rw [splitLines_one, if_pos hc]
      cases b with
      | nil => simp [splitLines, hc]
      | cons x xs =>
        have hx : [c] ++ x :: xs = c :: x :: xs := rfl
        rw [hx, splitLines_cons2, if_pos hc]
        simp
    · rw [splitLines_one, if_neg hc]
      simp
  | c :: d :: rest =>
    have hsh : (c :: d :: rest) ++ b = c :: d :: (rest ++ b) := rfl
    rw [hsh, splitLines_cons2, splitLines_cons2]
    by_cases hc : c = '\n'
    · have ih := splitLines_append (d :: rest) b
      rw [if_pos hc, if_pos hc]
      have hdr : (d :: rest) ++ b = d :: (rest ++ b) := rfl
      rw [hdr] at ih
      rw [ih]
      simp
    · by_cases hcd : c = '\r' ∧ d = '\n'
      · have ih := splitLines_append rest b
        rw [if_neg hc, if_neg hc, if_pos hcd, if_pos hcd]
        rw [ih]
        simp
      · have ih := splitLines_append (d :: rest) b
        have hdr : (d :: rest) ++ b = d :: (rest ++ b) := rfl
        rw [hdr] at ih
        rw [if_neg hc, if_neg hc, if_neg hcd, if_neg hcd]
        cases hsl : splitLines (d :: rest) with
        | mk f s =>
          rw [hsl] at ih
          cases f with
          | nil =>
            have h2 : s = d :: rest := by
              have := splitLines_fst_nil (d :: rest)
              rw [hsl] at this
              exact this rfl
            simp only [consHead, h2, List.nil_append]
            have hcs : c :: d :: rest ++ b = c :: d :: (rest ++ b) := rfl
            rw [hcs, splitLines_cons2, if_neg hc, if_neg hcd]
            rfl
          | cons l1 ls =>
            rw [ih]
            simp [consHead]
  termination_by a => a.length

/-- A list none of whose characters satisfies the ready test has a false
`any` scan. -/
theorem any_ready_false (l : List Char)
    (h : ∀ c ∈ l, (c = 'R' || c = 'K' || c = 'E') = false) :
    l.any (fun c => c = 'R') = false := by
  rw [← Bool.not_eq_true, List.any_eq_true]
  rintro ⟨c, hc, hR⟩
  have := h c hc
  simp at hR
  simp [hR] at this

/-- A list none of whose characters satisfies the ack test has no ack
match. -/
theorem find_ack_none (l : List Char)
    (h : ∀ c ∈ l, (c = 'R' || c = 'K' || c = 'E') = false) :
    l.find? (fun c => c = 'K' || c = 'E') = none := by
  rw [List.find?_eq_none]
  intro c hc
  have := h c hc
  simp at this
  simp [this.1.2, this.2]

/-- Reduction of the read callback on a pure text chunk: no signal bytes in
the chunk and neither sentinel in the accumulated buffer. -/
theorem processChunk_text (now : Nat) (s : RxState) (chunk : List Char)
    (hR : chunk.any (fun c => c = 'R') = false)
    (hKE : chunk.find? (fun c => c = 'K' || c = 'E') = none)
    (hF : splitFirst frameLostPat (s.buffer ++ chunk) = none)
    (hI : splitFirst invalidCmdPat (s.buffer ++ chunk) = none) :
    processChunk now s chunk =
      { s with buffer := (splitLines (s.buffer ++ chunk)).2,
               events := s.events ++ emitTextLines (splitLines (s.buffer ++ chunk)).1,
               lastActivity := now } := by
  simp [processChunk, hR, hKE, frameLostStage, hF, invalidCmdStage, hI, lineStage]

/-- A sentinel occurrence inside a context is an occurrence in the whole. -/
theorem splitFirst_none_of_within (pat l u v : List Char)
    (h : splitFirst pat (u ++ l ++ v) = none) : splitFirst pat l = none := by
  cases hs : splitFirst pat l with
  | none => rfl
  | some pp =>
    obtain ⟨pre, post⟩ := pp
    have hd := splitFirst_some pat l pre post hs
    exact absurd (by rw [hd]; simp)
      (splitFirst_none pat (u ++ l ++ v) h (u ++ pre) (post ++ v))

/-- The `FRAME_LOST` sentinel cannot occur in a buffer containing no `'R'`
byte (the sentinel itself contains one). -/
theorem frameLost_none_of_no_ready (l : List Char)
    (h : ∀ c ∈ l, (c = 'R' || c = 'K' || c = 'E') = false) :
    splitFirst frameLostPat l = none := by
  cases hs : splitFirst frameLostPat l with
  | none => rfl
  | some pp =>
    obtain ⟨pre, post⟩ := pp
    have hd := splitFirst_some frameLostPat l pre post hs
    have hRmem : 'R' ∈ l := by
      rw [hd]
      have : 'R' ∈ frameLostPat := by decide
      simp [this]
    have := h 'R' hRmem
    simp at this

/-- `hexEncode` produces two characters per byte. -/
theorem hexEncode_length (bs : List Nat) : (hexEncode bs).length = 2 * bs.length := by
  induction bs with
  | nil => rfl
  | cons b rest ih =>
    have hcons : hexEncode (b :: rest) = hexByte b ++ hexEncode rest := rfl
    rw [hcons]
    simp [hexByte, ih]
    omega

/-- Erasing an index never lengthens a list. -/
theorem length_eraseIdx_le (l : List (List Nat)) (i : Nat) :
    (l.eraseIdx i).length ≤ l.length := by
  induction l generalizing i with
  | nil => simp
  | cons x xs ih =>
    cases i with
    | zero => simp [List.eraseIdx]
    | succ j =>
      have := ih j
      simp [List.eraseIdx]
      omega

/-- A digit character is not whitespace. -/
theorem not_ws_of_digit (c : Char) (h : c.isDigit = true) : isWS c = false := by
  by_cases h1 : c = ' '
  · rw [h1] at h; exact absurd h (by decide)
  · by_cases h2 : c = '\t'
    · rw [h2] at h; exact absurd h (by decide)
    · by_cases h3 : c = '\n'
      · rw [h3] at h; exact absurd h (by decide)
      · by_cases h4 : c = '\r'
        · rw [h4] at h; exact absurd h (by decide)
        · by_cases h5 : c = '\x0c'
          · rw [h5] at h; exact absurd h (by decide)
          · by_cases h6 : c = '\x0b'
            · rw [h6] at h; exact absurd h (by decide)
            · simp [isWS, h1, h2, h3, h4, h5, h6]

/-- `takeWhile isDigit` keeps an all-digit list whole. -/
theorem takeWhile_digits (ds : List Char) (h : ∀ c ∈ ds, c.isDigit = true) :
    ds.takeWhile Char.isDigit = ds := by
  induction ds with
  | nil => rfl
  | cons d rest ih =>
    have hd := h d (by simp)
    rw [List.takeWhile_cons, if_pos hd, ih fun c hc => h c (by simp [hc])]

/-- `jsTrim` is the identity on the `SCREENTIME**` literal followed by a
non-empty digit run. -/
theorem jsTrim_st (ds : List Char) (hne : ds ≠ []) (h : ∀ c ∈ ds, c.isDigit = true) :
    jsTrim (stPat ++ ds) = stPat ++ ds := by
  have h1 : (stPat ++ ds).dropWhile isWS = stPat ++ ds := by
    have : stPat ++ ds = 'S' :: (stPat.tail ++ ds) := rfl
    rw [this, List.dropWhile_cons]
    simp [isWS]
  rw [jsTrim, h1]
  have h2 : (stPat ++ ds).reverse = ds.reverse ++ stPat.reverse := by
    simp
  cases hrev : ds.reverse with
  | nil => exact absurd (by simpa using congrArg List.reverse hrev) hne
  | cons d0 rest =>
    have hd0 : d0.isDigit = true := by
      apply h
      have : d0 ∈ ds.reverse := by rw [hrev]; simp
      simpa using this
    have h3 : ((stPat ++ ds).reverse).dropWhile isWS = (stPat ++ ds).reverse := by
      rw [h2, hrev, List.cons_append, List.dropWhile_cons,
        if_neg (by simp [not_ws_of_digit d0 hd0]), ← List.cons_append, ← hrev, ← h2]
    rw [h3]
    simp

/-- The regex match on `SCREENTIME**` followed by a non-empty digit run
succeeds at position zero and captures exactly the digit run. -/
theorem matchScreentime_st (ds : List Char) (hne : ds ≠ [])
    (h : ∀ c ∈ ds, c.isDigit = true) :
    matchScreentime (stPat ++ ds) = some ds := by
  have hunfold : matchScreentime (stPat ++ ds) =
      if isPrefList stPat (stPat ++ ds) &&
          !(((stPat ++ ds).drop stPat.length).takeWhile Char.isDigit).isEmpty then
        some (((stPat ++ ds).drop stPat.length).takeWhile Char.isDigit)
      else matchScreentime (stPat.tail ++ ds) := rfl
  have hpref : isPrefList stPat (stPat ++ ds) = true :=
    (isPrefList_iff stPat (stPat ++ ds)).mpr ⟨ds, rfl⟩
  have hdrop : (stPat ++ ds).drop stPat.length = ds := List.drop_left stPat ds
  have htake := takeWhile_digits ds h
  rw [hunfold, hdrop, htake]
  simp [hpref, hne]

/-- Claim C1: during `send(image)`, in the AwaitingReady phase, an inbound
`'R'` (0x52) byte is claimed to terminate the ready-wait with success.  The
code disagrees: the `'R'` branch of the read callback only refreshes the
activity timestamp and leaves `transferInProgressRef` set, so the ready-wait
poll (which resolves exactly when the transfer is no longer flagged
in-progress) stays pending — it is the `'K'` ack byte that unblocks it.
This theorem evaluates the read callback at the failing input. -/
theorem ready_signal_leaves_wait_pending :
    (processChunk 100 awaitingReady ['R']).inProgress = true ∧
    (processChunk 100 awaitingReady ['R']).aborted = false ∧
    waitResolved (processChunk 100 awaitingReady ['R']) = false ∧
    waitAborted (processChunk 100 awaitingReady ['R']) = false ∧
    waitResolved (processChunk 100 awaitingReady ['K']) = true := by
  decide

/-- Counterexample to claim C2: a `send(image)` call made while a transfer
is already in progress is claimed to fail with `TransferBusy` without
writing.  In the code `sendImageToDevice` has no busy check: the call
succeeds and writes `START_RTIMAGE` to the channel. -/
theorem send_during_transfer_not_rejected :
    sendImageBegin busyState (some [1]) =
      Except.ok { buffer := [], inProgress := true, aborted := false,
                  deviceOpen := true, lastActivity := 0,
                  writes := ["START_RTIMAGE\n".toList], events := [] } ∧
    sendImageBegin busyState (some [1]) ≠ Except.error SendErr.notConnected := by
  refine ⟨rfl, ?_⟩
  simp [sendImageBegin, busyState]

/-- Claim C2 (amended): a `send(image)` call while the channel is not open
fails with the not-connected error and writes nothing; but there is no
`TransferBusy` precondition — a call made while a transfer is in progress
proceeds regardless of the previous flags, re-arms them and writes
`START_RTIMAGE`. -/
theorem send_precondition_check :
    (∀ (s : RxState) (img : Option (List Nat)), s.deviceOpen = false →
      sendImageBegin s img = Except.error SendErr.notConnected) ∧
    (∀ (s : RxState) (p : List Nat), s.deviceOpen = true →
      sendImageBegin s (some p) =
        Except.ok { s with inProgress := true, aborted := false,
                           writes := s.writes ++ ["START_RTIMAGE\n".toList] }) := by
  constructor
  · intro s img h
    simp [sendImageBegin, h]
  · intro s p h
    simp [sendImageBegin, h]

/-- Witness for the amended claim C2 at a concrete closed state. -/
theorem send_precondition_check_witness :
    sendImageBegin { buffer := [], inProgress := false, aborted := false,
                     deviceOpen := false, lastActivity := 0, writes := [],
                     events := [] } none = Except.error SendErr.notConnected :=
  send_precondition_check.1 _ none rfl

/-- Counterexample to claim C3: removing `img1` while the active index is 2
is claimed to re-clamp the index so that the next visited index is 0.  In
the code `removeImage` never touches `currentImageIndexRef`: the index stays
at 2, which is out of bounds for the remaining 2-element sequence, so the
next `displayNextImage` step fails (and stops the loop) instead of visiting
index 0. -/
theorem remove_mid_loop_out_of_bounds :
    (removeImage 1 loopAtTwo).currentIndex = 2 ∧
    (removeImage 1 loopAtTwo).images.length = 2 ∧
    (removeImage 1 loopAtTwo).loopActive = true ∧
    displayNextImage (removeImage 1 loopAtTwo) = none := by
  decide

/-- Claim C3 (amended): `removeImage` leaves the active index unchanged (no
re-clamping); in the concrete scenario the index 2 is out of bounds for the
remaining 2-element sequence and the next `displayNextImage` fails instead
of visiting index 0.  The in-bounds invariant is maintained only by the
successful `displayNextImage` steps themselves, whose modulo advance keeps
the index below the sequence length. -/
theorem remove_image_keeps_index :
    (∀ (i : Nat) (st : LoopState), (removeImage i st).currentIndex = st.currentIndex) ∧
    (∀ (st : LoopState) (img : List Nat) (st' : LoopState),
      displayNextImage st = some (img, st') →
      st'.currentIndex < st'.images.length) ∧
    displayNextImage (removeImage 1 loopAtTwo) = none := by
  refine ⟨?_, ?_, by decide⟩
  · intro i st
    simp only [removeImage]
    by_cases h : st.loopActive = true ∧ st.images.length ≤ 1
    · simp [h]
    · simp [h]
  · intro st img st' h
    simp only [displayNextImage] at h
    by_cases hlen : st.images.length = 0
    · simp [hlen] at h
    · rw [if_neg hlen] at h
      cases hget : st.images[st.currentIndex]? with
      | none => rw [hget] at h; exact absurd h (by simp)
      | some i0 =>
        rw [hget] at h
        simp only [Option.some.injEq, Prod.mk.injEq] at h
        rw [← h.2]
        exact Nat.mod_lt _ (Nat.pos_of_ne_zero hlen)

/-- Witness for the amended claim C3: a successful `displayNextImage` step
keeps the index strictly below the sequence length. -/
theorem remove_image_keeps_index_witness :
    displayNextImage ({ images := [[5], [6]], currentIndex := 1, loopActive := true } : LoopState) =
      some ([6], { images := [[5], [6]], currentIndex := 0, loopActive := true }) ∧
    ({ images := [[5], [6]], currentIndex := 0, loopActive := true } : LoopState).currentIndex <
      ({ images := [[5], [6]], currentIndex := 0, loopActive := true } : LoopState).images.length :=
  ⟨by decide,
    remove_image_keeps_index.2.1
      { images := [[5], [6]], currentIndex := 1, loopActive := true } [6]
      { images := [[5], [6]], currentIndex := 0, loopActive := true }
      (by decide)⟩

/-- Claim C6: one watchdog tick on a transfer stuck in a non-Idle phase for
strictly more than `TRANSFER_TIMEOUT` ms sets the aborted flag, forces the
transfer out of its in-progress state, and writes the literal `ABORT`
command exactly once — every later tick leaves the state (and the write
log) unchanged. -/
theorem watchdog_aborts_once :
    ∀ (now : Nat) (s : RxState),
      s.inProgress = true → s.deviceOpen = true →
      now - s.lastActivity > TRANSFER_TIMEOUT →
      (timeoutTick now s).aborted = true ∧
      (timeoutTick now s).inProgress = false ∧
      (timeoutTick now s).writes = s.writes ++ ["ABORT\n".toList] ∧
      ∀ later, timeoutTick later (timeoutTick now s) = timeoutTick now s := by
  intro now s hin hdev hgt
  have habort : timeoutTick now s =
      { s with writes := s.writes ++ ["ABORT\n".toList],
               aborted := true, inProgress := false } := by
    simp [timeoutTick, hin, hgt, abortTransfer, hdev]
  refine ⟨by rw [habort], by rw [habort], by rw [habort], ?_⟩
  intro later
  rw [habort]
  simp [timeoutTick]

/-- Witness for claim C6 at the spec's 15001 ms scenario. -/
theorem watchdog_aborts_once_witness :
    (15001 - (awaitingReady.lastActivity) > TRANSFER_TIMEOUT) ∧
    (timeoutTick 15001 awaitingReady).aborted = true ∧
    (timeoutTick 15001 awaitingReady).inProgress = false ∧
    (timeoutTick 15001 awaitingReady).writes = awaitingReady.writes ++ ["ABORT\n".toList] :=
  ⟨by decide,
    (watchdog_aborts_once 15001 awaitingReady rfl rfl (by decide)).1,
    (watchdog_aborts_once 15001 awaitingReady rfl rfl (by decide)).2.1,
    (watchdog_aborts_once 15001 awaitingReady rfl rfl (by decide)).2.2.1⟩

/-- Claim C7: for every payload length, the 8-byte header is the magic
constant `0xAA55CC33` in little-endian byte order followed by the payload
length as a little-endian unsigned 32-bit integer, and it is transmitted as
two lowercase hex characters per byte; for length 0 the transmitted digits
are `33cc55aa00000000`. -/
theorem image_header_magic_le :
    ∀ len : Nat,
      imageHeader len = [0x33, 0xcc, 0x55, 0xaa] ++
        [len % 256, len / 256 % 256, len / 65536 % 256, len / 16777216 % 256] ∧
      hexEncode (imageHeader 0) = "33cc55aa00000000".toList ∧
      (hexEncode (imageHeader len)).length = 2 * 8 := by
  intro len
  refine ⟨?_, by decide, ?_⟩
  · simp [imageHeader, leBytes4, FRAME_MAGIC]
  · rw [hexEncode_length]
    simp [imageHeader, leBytes4]

/-- Claim C9: whenever `clearImage` completes successfully (it wrote the
`CLEAR_IMAGE` command and slept 500 ms), the in-progress flag and the
aborted flag are both cleared, whatever the prior transfer state was. -/
theorem clear_image_resets_flags :
    ∀ (s s' : RxState), clearImage s = some s' →
      s'.inProgress = false ∧ s'.aborted = false ∧
      s'.writes = s.writes ++ ["CLEAR_IMAGE\n".toList] := by
  intro s s' h
  by_cases hd : s.deviceOpen = true
  · simp only [clearImage, hd, if_true, Option.some.injEq] at h
    rw [← h]
    exact ⟨rfl, rfl, rfl⟩
  · simp [clearImage, hd] at h

/-- Witness for claim C9: `clearImage` invoked mid-handshake (in-progress
and aborted both set) clears both flags. -/
theorem clear_image_resets_flags_witness :
    clearImage ({ buffer := [], inProgress := true, aborted := true,
                  deviceOpen := true, lastActivity := 7, writes := [],
                  events := [] } : RxState) =
      some { buffer := [], inProgress := false, aborted := false,
             deviceOpen := true, lastActivity := 7,
             writes := ["CLEAR_IMAGE\n".toList], events := [] } ∧
    (false = false ∧ false = false ∧
      (["CLEAR_IMAGE\n".toList] : List (List Char)) =
        [] ++ ["CLEAR_IMAGE\n".toList]) :=
  ⟨by decide,
    clear_image_resets_flags
      { buffer := [], inProgress := true, aborted := true, deviceOpen := true,
        lastActivity := 7, writes := [], events := [] }
      { buffer := [], inProgress := false, aborted := false, deviceOpen := true,
        lastActivity := 7, writes := ["CLEAR_IMAGE\n".toList], events := [] }
      (by decide)⟩

/-- Claim C10: every operation on the uploaded image list preserves the
`MAX_IMAGES` bound — `pickImage` rejects any batch that would push the
total beyond 6, removal only shrinks the list, and clearing empties it. -/
theorem uploaded_images_bounded :
    ∀ (cur newImages : List (List Nat)) (i : Nat),
      cur.length ≤ MAX_IMAGES →
      (pickImage cur newImages).length ≤ MAX_IMAGES ∧
      (cur.eraseIdx i).length ≤ MAX_IMAGES ∧
      clearAllImages.length ≤ MAX_IMAGES := by
  intro cur newImages i h
  refine ⟨?_, le_trans (length_eraseIdx_le cur i) h, by decide⟩
  by_cases hb : cur.length + newImages.length > MAX_IMAGES
  · simpa [pickImage, hb] using h
  · simp only [pickImage, hb, if_false]
    rw [List.length_append]
    omega

/-- Witness for claim C10 at a concrete list. -/
theorem uploaded_images_bounded_witness :
    (pickImage [[1], [2]] [[3]]).length ≤ MAX_IMAGES ∧
    (([[1], [2]] : List (List Nat)).eraseIdx 0).length ≤ MAX_IMAGES ∧
    clearAllImages.length ≤ MAX_IMAGES :=
  ⟨(uploaded_images_bounded [[1], [2]] [[3]] 0 (by decide)).1,
    (uploaded_images_bounded [[1], [2]] [[3]] 0 (by decide)).2.1,
    (uploaded_images_bounded [[1], [2]] [[3]] 0 (by decide)).2.2⟩

/-- Claim C8: a SCREENTIME seconds value outside the closed range 30-300 is
rejected by local validation with nothing written, while in-range values
are accepted and the command text is transmitted verbatim with a trailing
newline; in particular 29 and 301 are rejected, 30 and 300 accepted. -/
theorem screentime_range_validation :
    (∀ ds : List Char, ds ≠ [] → (∀ c ∈ ds, c.isDigit = true) →
      executeScreentime (stPat ++ ds) =
        if parseDigits ds < 30 ∨ 300 < parseDigits ds then none
        else some (stPat ++ ds ++ ['\n'])) ∧
    executeScreentime "SCREENTIME**29".toList = none ∧
    executeScreentime "SCREENTIME**301".toList = none ∧
    executeScreentime "SCREENTIME**30".toList = some ("SCREENTIME**30\n".toList) ∧
    executeScreentime "SCREENTIME**300".toList = some ("SCREENTIME**300\n".toList) := by
  refine ⟨?_, by decide, by decide, by decide, by decide⟩
  intro ds hne h
  have h1 := jsTrim_st ds hne h
  have h2 := matchScreentime_st ds hne h
  simp only [executeScreentime, h1, h2]

/-- Witness for claim C8 at the digit run 60. -/
theorem screentime_range_validation_witness :
    (['6', '0'] : List Char) ≠ [] ∧
    executeScreentime (stPat ++ ['6', '0']) =
      (if parseDigits ['6', '0'] < 30 ∨ 300 < parseDigits ['6', '0'] then none
       else some (stPat ++ ['6', '0'] ++ ['\n'])) :=
  ⟨by decide, screentime_range_validation.1 ['6', '0'] (by decide) (by decide)⟩

/-- Effect of the `INVALID_CMD` stage on the non-buffer state fields. -/
theorem invalidCmdStage_fields (s : RxState) (buf : List Char) :
    (invalidCmdStage s buf).1.aborted = s.aborted ∧
    (invalidCmdStage s buf).1.inProgress = s.inProgress ∧
    (invalidCmdStage s buf).1.writes = s.writes ∧
    ∀ e ∈ s.events, e ∈ (invalidCmdStage s buf).1.events := by
  unfold invalidCmdStage
  cases splitFirst invalidCmdPat buf with
  | none => exact ⟨rfl, rfl, rfl, fun e he => he⟩
  | some pp =>
    obtain ⟨a, b⟩ := pp
    exact ⟨rfl, rfl, rfl, fun e he => List.mem_append_left _ he⟩

/-- Effect of the line-splitting stage on the non-buffer state fields. -/
theorem lineStage_fields (s : RxState) (buf : List Char) :
    (lineStage s buf).aborted = s.aborted ∧
    (lineStage s buf).inProgress = s.inProgress ∧
    (lineStage s buf).writes = s.writes ∧
    ∀ e ∈ s.events, e ∈ (lineStage s buf).events := by
  refine ⟨rfl, rfl, rfl, fun e he => ?_⟩
  simp only [lineStage]
  exact List.mem_append_left _ he

/-- `abortTransfer` never touches the event log. -/
theorem abortTransfer_events (x : RxState) : (abortTransfer x).events = x.events := by
  unfold abortTransfer
  split
  · rfl
  · rfl

/-- `abortTransfer` preserves an already-set aborted flag. -/
theorem abortTransfer_aborted (x : RxState) (h : x.aborted = true) :
    (abortTransfer x).aborted = true := by
  unfold abortTransfer
  split
  · rfl
  · exact h

/-- `abortTransfer` on an in-flight transfer with an open device clears the
in-progress flag and appends the `ABORT` write. -/
theorem abortTransfer_busy (x : RxState) (hip : x.inProgress = true)
    (hdev : x.deviceOpen = true) :
    (abortTransfer x).inProgress = false ∧
    (abortTransfer x).writes = x.writes ++ ["ABORT\n".toList] := by
  unfold abortTransfer
  rw [if_pos ⟨hip, hdev⟩]
  exact ⟨rfl, rfl⟩

/-- Effect of the `FRAME_LOST` stage when the sentinel occurs. -/
theorem frameLostStage_some (s : RxState) (b pre post : List Char)
    (hsp : splitFirst frameLostPat b = some (pre, post)) :
    (frameLostStage s b).2 = pre ++ post ∧
    (frameLostStage s b).1.events = s.events ++ [RxEvent.frameLost] ∧
    (frameLostStage s b).1.aborted = true ∧
    (s.inProgress = true → s.deviceOpen = true →
      (frameLostStage s b).1.inProgress = false ∧
      "ABORT\n".toList ∈ (frameLostStage s b).1.writes) := by
  have hfls : frameLostStage s b =
      (if s.inProgress = true then
        abortTransfer { s with events := s.events ++ [RxEvent.frameLost], aborted := true }
      else { s with events := s.events ++ [RxEvent.frameLost], aborted := true },
      pre ++ post) := by
    unfold frameLostStage
    rw [hsp]
  refine ⟨by rw [hfls], ?_, ?_, ?_⟩
  · rw [hfls]
    by_cases hip : s.inProgress = true
    · rw [if_pos hip]
      rw [abortTransfer_events]
    · rw [if_neg hip]
  · rw [hfls]
    by_cases hip : s.inProgress = true
    · rw [if_pos hip]
      exact abortTransfer_aborted _ rfl
    · rw [if_neg hip]
  · intro hip hdev
    rw [hfls, if_pos hip]
    have habt := abortTransfer_busy
      { s with events := s.events ++ [RxEvent.frameLost], aborted := true } hip hdev
    refine ⟨habt.1, ?_⟩
    rw [habt.2]
    exact List.mem_append_right _ (by simp)

/-- On a text chunk the read callback coincides with `textPipeline` on all
fields but the activity timestamp. -/
theorem processChunk_text_fields (now : Nat) (s : RxState) (chunk : List Char)
    (hR : chunk.any (fun c => c = 'R') = false)
    (hKE : chunk.find? (fun c => c = 'K' || c = 'E') = none) :
    (processChunk now s chunk).events = (textPipeline s (s.buffer ++ chunk)).events ∧
    (processChunk now s chunk).aborted = (textPipeline s (s.buffer ++ chunk)).aborted ∧
    (processChunk now s chunk).inProgress = (textPipeline s (s.buffer ++ chunk)).inProgress ∧
    (processChunk now s chunk).writes = (textPipeline s (s.buffer ++ chunk)).writes := by
  refine ⟨?_, ?_, ?_, ?_⟩ <;> simp [processChunk, textPipeline, hR, hKE]

/-- The `INVALID_CMD` and line stages preserve the flags, the write log and
the already-emitted events of the `FRAME_LOST` stage. -/
theorem textPipeline_fields (s : RxState) (b : List Char) :
    (textPipeline s b).aborted = (frameLostStage s b).1.aborted ∧
    (textPipeline s b).inProgress = (frameLostStage s b).1.inProgress ∧
    (textPipeline s b).writes = (frameLostStage s b).1.writes ∧
    ∀ e ∈ (frameLostStage s b).1.events, e ∈ (textPipeline s b).events := by
  have hinv := invalidCmdStage_fields (frameLostStage s b).1 (frameLostStage s b).2
  have hline := lineStage_fields
    (invalidCmdStage (frameLostStage s b).1 (frameLostStage s b).2).1
    (invalidCmdStage (frameLostStage s b).1 (frameLostStage s b).2).2
  refine ⟨?_, ?_, ?_, fun e he => ?_⟩
  · unfold textPipeline
    rw [hline.1, hinv.1]
  · unfold textPipeline
    rw [hline.2.1, hinv.2.1]
  · unfold textPipeline
    rw [hline.2.2.1, hinv.2.2.1]
  · unfold textPipeline
    exact hline.2.2.2 e (hinv.2.2.2 e he)

/-- Claim C4: when accumulating a pure text chunk leaves the classifier
buffer containing the literal substring `FRAME_LOST\r\n` (at any position),
the classifier emits the `FrameLost` event, sets the aborted flag (and, for
an in-flight transfer with an open channel, clears the in-progress flag and
writes `ABORT`), and deletes exactly the first occurrence of the sentinel,
leaving the remaining buffer content unchanged. -/
theorem frame_lost_abort_and_removal :
    ∀ (now : Nat) (s : RxState) (chunk pre post : List Char),
      chunk.any (fun c => c = 'R') = false →
      chunk.find? (fun c => c = 'K' || c = 'E') = none →
      splitFirst frameLostPat (s.buffer ++ chunk) = some (pre, post) →
      RxEvent.frameLost ∈ (processChunk now s chunk).events ∧
      (processChunk now s chunk).aborted = true ∧
      (s.inProgress = true → s.deviceOpen = true →
        (processChunk now s chunk).inProgress = false ∧
        "ABORT\n".toList ∈ (processChunk now s chunk).writes) ∧
      s.buffer ++ chunk = pre ++ frameLostPat ++ post ∧
      (∀ pre2 post2, s.buffer ++ chunk = pre2 ++ frameLostPat ++ post2 →
        pre.length ≤ pre2.length) ∧
      (frameLostStage s (s.buffer ++ chunk)).2 = pre ++ post := by
  intro now s chunk pre post hR hKE hsp
  have hfls := frameLostStage_some s (s.buffer ++ chunk) pre post hsp
  have hpf := processChunk_text_fields now s chunk hR hKE
  have htp := textPipeline_fields s (s.buffer ++ chunk)
  refine ⟨?_, ?_, ?_, splitFirst_some frameLostPat (s.buffer ++ chunk) pre post hsp,
    splitFirst_minimal frameLostPat (by decide) (s.buffer ++ chunk) pre post hsp, hfls.1⟩
  · rw [hpf.1]
    apply htp.2.2.2
    rw [hfls.2.1]
    exact List.mem_append_right _ (by simp)
  · rw [hpf.2.1, htp.1, hfls.2.2.1]
  · intro hip hdev
    have habt := hfls.2.2.2 hip hdev
    constructor
    · rw [hpf.2.2.1, htp.2.1, habt.1]
    · rw [hpf.2.2.2, htp.2.2.1]
      exact habt.2

/-- Witness for claim C4: the chunk `\ncd` completes the sentinel
mid-buffer; the classifier reports it and aborts. -/
theorem frame_lost_abort_and_removal_witness :
    splitFirst frameLostPat (frameLostScenario.buffer ++ "\ncd".toList) =
      some ("ab".toList, "cd".toList) ∧
    RxEvent.frameLost ∈ (processChunk 5 frameLostScenario "\ncd".toList).events ∧
    (processChunk 5 frameLostScenario "\ncd".toList).aborted = true ∧
    (frameLostStage frameLostScenario
      (frameLostScenario.buffer ++ "\ncd".toList)).2 = "ab".toList ++ "cd".toList :=
  ⟨by decide,
    (frame_lost_abort_and_removal 5 frameLostScenario "\ncd".toList
      "ab".toList "cd".toList (by decide) (by decide) (by decide)).1,
    (frame_lost_abort_and_removal 5 frameLostScenario "\ncd".toList
      "ab".toList "cd".toList (by decide) (by decide) (by decide)).2.1,
    (frame_lost_abort_and_removal 5 frameLostScenario "\ncd".toList
      "ab".toList "cd".toList (by decide) (by decide) (by decide)).2.2.2.2.2⟩

/-- Counterexample to claim C5 as stated: split-invariance of `TextLine`
events fails for arbitrary inbound text.  The text `ab\ncRd` processed as
one chunk contains the byte `'R'`, so the whole chunk is consumed as a
Ready signal and no `TextLine` is emitted; split after the `c` (inside the
second line), the first chunk `ab\nc` emits the line `ab` before the second
chunk is consumed as a signal. -/
theorem textline_split_invariance_cex :
    textLinesOf (processChunk 0 (processChunk 0 rxInit "ab\nc".toList) "Rd".toList) ≠
      textLinesOf (processChunk 0 rxInit ("ab\nc".toList ++ "Rd".toList)) := by
  decide

/-- Claim C5 (amended): for inbound text containing no control-signal byte
(`'R'`, `'K'`, `'E'`) and no occurrence of the `INVALID_CMD\r\n` sentinel,
processing the text split across two chunks at an arbitrary offset (with
the classifier buffer carried between them) emits the same sequence of
`TextLine` events as processing the unsplit text in one chunk.  (Without
the two exclusions the property fails: a signal byte makes the classifier
discard its whole chunk, and a sentinel removal can recombine differently
across splits.) -/
theorem textline_split_invariance :
    ∀ (n1 n2 n3 : Nat) (t1 t2 : List Char),
      (∀ c ∈ t1 ++ t2, (c = 'R' || c = 'K' || c = 'E') = false) →
      splitFirst invalidCmdPat (t1 ++ t2) = none →
      textLinesOf (processChunk n2 (processChunk n1 rxInit t1) t2) =
        textLinesOf (processChunk n3 rxInit (t1 ++ t2)) := by
  intro n1 n2 n3 t1 t2 hsig hinv
  have hsig1 : ∀ c ∈ t1, (c = 'R' || c = 'K' || c = 'E') = false :=
    fun c hc => hsig c (List.mem_append_left t2 hc)
  have hsig2 : ∀ c ∈ t2, (c = 'R' || c = 'K' || c = 'E') = false :=
    fun c hc => hsig c (List.mem_append_right t1 hc)
  have hF1 : splitFirst frameLostPat (rxInit.buffer ++ t1) = none := by
    simpa [rxInit] using frameLost_none_of_no_ready t1 hsig1
  have hI1 : splitFirst invalidCmdPat (rxInit.buffer ++ t1) = none := by
    have := splitFirst_none_of_within invalidCmdPat t1 [] t2 (by simpa using hinv)
    simpa [rxInit] using this
  have hstep1 := processChunk_text n1 rxInit t1
    (any_ready_false t1 hsig1) (find_ack_none t1 hsig1) hF1 hI1
  have hbuf1 : (processChunk n1 rxInit t1).buffer = (splitLines t1).2 := by
    rw [hstep1]
    simp [rxInit]
  have hev1 : (processChunk n1 rxInit t1).events = emitTextLines (splitLines t1).1 := by
    rw [hstep1]
    simp [rxInit]
  obtain ⟨w, hw⟩ := splitLines_snd_suffix t1
  have hsigr : ∀ c ∈ (splitLines t1).2 ++ t2, (c = 'R' || c = 'K' || c = 'E') = false := by
    intro c hc
    rcases List.mem_append.mp hc with h | h
    · exact hsig1 c (by rw [hw]; exact List.mem_append_right w h)
    · exact hsig2 c h
  have hF2 : splitFirst frameLostPat ((processChunk n1 rxInit t1).buffer ++ t2) = none := by
    rw [hbuf1]
    exact frameLost_none_of_no_ready _ hsigr
  have hI2 : splitFirst invalidCmdPat ((processChunk n1 rxInit t1).buffer ++ t2) = none := by
    rw [hbuf1]
    apply splitFirst_none_of_within invalidCmdPat ((splitLines t1).2 ++ t2) w []
    have hrw : w ++ ((splitLines t1).2 ++ t2) ++ [] = t1 ++ t2 := by
      rw [List.append_nil, ← List.append_assoc, ← hw]
    rw [hrw]
    exact hinv
  have hstep2 := processChunk_text n2 (processChunk n1 rxInit t1) t2
    (any_ready_false t2 hsig2) (find_ack_none t2 hsig2) hF2 hI2
  have hF3 : splitFirst frameLostPat (rxInit.buffer ++ (t1 ++ t2)) = none := by
    simpa [rxInit] using frameLost_none_of_no_ready (t1 ++ t2) hsig
  have hI3 : splitFirst invalidCmdPat (rxInit.buffer ++ (t1 ++ t2)) = none := by
    simpa [rxInit] using hinv
  have hstep3 := processChunk_text n3 rxInit (t1 ++ t2)
    (any_ready_false (t1 ++ t2) hsig) (find_ack_none (t1 ++ t2) hsig) hF3 hI3
  rw [hstep2, hstep3]
  simp only [textLinesOf]
  rw [hev1, hbuf1]
  have hsp : (splitLines (t1 ++ t2)).1 =
      (splitLines t1).1 ++ (splitLines ((splitLines t1).2 ++ t2)).1 := by
    rw [splitLines_append t1 t2]
  simp [rxInit, hsp, emitTextLines, List.filterMap_append]

/-- Witness for the amended claim C5 on a concrete signal-free text split
mid-line. -/
theorem textline_split_invariance_witness :
    (∀ c ∈ "ab\ncd".toList ++ "g\nh".toList, (c = 'R' || c = 'K' || c = 'E') = false) ∧
    textLinesOf (processChunk 1 (processChunk 0 rxInit "ab\ncd".toList) "g\nh".toList) =
      textLinesOf (processChunk 2 rxInit ("ab\ncd".toList ++ "g\nh".toList)) :=
  ⟨by decide,
    textline_split_invariance 0 1 2 "ab\ncd".toList "g\nh".toList (by decide) (by decide)⟩
